import Mathlib

/-!
# Verification of the calendar-sync pipeline (`src/main.py`)

Shallow embedding of the fetch–normalize–upsert pipeline:

* the pydantic record shapes `Event` and `Attendee` (including the
  `EmailStr` validation pipeline and the `strip_email` after-validator);
* the normalizer `process_events`;
* the fetcher `fetch_events`, including the keyword-argument check the
  generated Google API client performs on `events().list(...)` calls;
* the relational store: the two tables created by `make_migrations`,
  the PostgreSQL semantics of the two `INSERT ... ON CONFLICT` statements
  issued by `insert_into_postgres`, and the run structure of `main`.

Machine datetimes are plain records over `Nat`/`Int`; fallible Python code
is modelled with `Except`.
-/

/-- Python exceptions and database errors that the pipeline can raise:
`keyError` models a `KeyError` from a `dict[...]` access, `validationError`
a pydantic `ValidationError`, `typeError` the `TypeError` raised by the
generated Google API client on an unknown keyword argument, and the last
two model PostgreSQL errors surfaced by psycopg2.  `loopLimit` is an
artifact of bounding the fetcher's unbounded `while True` loop with fuel. -/
inductive PyErr where
  | keyError
  | validationError (msg : String)
  | typeError (msg : String)
  | undefinedTable
  | foreignKeyViolation
  | loopLimit
deriving DecidableEq, Repr

/-- A Python `datetime` value as produced by pydantic's datetime validator:
calendar fields plus an optional UTC offset in minutes (`none` models a
naive datetime, i.e. `tzinfo is None`). -/
structure PyDateTime where
  year : Nat
  month : Nat
  day : Nat
  hour : Nat
  minute : Nat
  second : Nat
  microsecond : Nat
  utcOffsetMinutes : Option Int
deriving DecidableEq, Repr

/-! ## Python `str.strip` -/

/-- List-level model of Python's `str.strip()`: drop whitespace from both
ends.  (Python strips the full Unicode whitespace set; the model uses
`Char.isWhitespace`, which covers the ASCII whitespace actually occurring
in the data handled by this pipeline.) -/
def pyStripL (l : List Char) : List Char :=
  ((l.dropWhile Char.isWhitespace).reverse.dropWhile Char.isWhitespace).reverse

/-- Python's `str.strip()` on strings. -/
def pyStrip (s : String) : String :=
  ⟨pyStripL s.toList⟩

/-! ## Datetime parsing (pydantic v2 / speedate, lax mode)

pydantic validates a `datetime` field given a string with the speedate
parser: an RFC 3339 datetime `YYYY-MM-DD[T ]HH:MM[:SS[.ffffff]][Z|±HH:MM|±HHMM]`,
or a bare date `YYYY-MM-DD`, which yields that date at midnight with no
timezone.  Numeric (unix-timestamp) inputs never occur in this pipeline and
are not modelled. -/

/-- Numeric value of a decimal digit character. -/
def digitVal (c : Char) : Nat := c.toNat - 48

/-- Read exactly two decimal digits. -/
def twoDigits : List Char → Option (Nat × List Char)
  | a :: b :: rest =>
    if a.isDigit && b.isDigit then some (digitVal a * 10 + digitVal b, rest) else none
  | _ => none

/-- Read exactly four decimal digits. -/
def fourDigits : List Char → Option (Nat × List Char)
  | a :: b :: c :: d :: rest =>
    if a.isDigit && b.isDigit && c.isDigit && d.isDigit then
      some (((digitVal a * 10 + digitVal b) * 10 + digitVal c) * 10 + digitVal d, rest)
    else none
  | _ => none

/-- Gregorian leap-year test. -/
def isLeapYear (y : Nat) : Bool :=
  (y % 4 == 0 && y % 100 != 0) || (y % 400 == 0)

/-- Number of days in a month. -/
def daysInMonth (y m : Nat) : Nat :=
  if m == 2 then (if isLeapYear y then 29 else 28)
  else if m == 4 || m == 6 || m == 9 || m == 11 then 30
  else 31

/-- Parse a leading `YYYY-MM-DD` date, returning the remaining characters. -/
def parseDatePart (l : List Char) : Option ((Nat × Nat × Nat) × List Char) :=
  match fourDigits l with
  | none => none
  | some (y, r1) =>
    match r1 with
    | '-' :: r2 =>
      match twoDigits r2 with
      | none => none
      | some (m, r3) =>
        match r3 with
        | '-' :: r4 =>
          match twoDigits r4 with
          | none => none
          | some (d, r5) =>
            if 1 ≤ m && m ≤ 12 && 1 ≤ d && d ≤ daysInMonth y m then
              some ((y, m, d), r5)
            else none
        | _ => none
    | _ => none

/-- Parse a trailing UTC-offset suffix: empty (naive), `Z`/`z`, `±HH:MM`
or `±HHMM`.  Returns the offset in minutes. -/
def parseTZPart : List Char → Option (Option Int)
  | [] => some none
  | ['Z'] => some (some 0)
  | ['z'] => some (some 0)
  | c :: rest =>
    if c = '+' || c = '-' then
      match rest with
      | [h1, h2, ':', m1, m2] =>
        match twoDigits [h1, h2], twoDigits [m1, m2] with
        | some (hh, _), some (mm, _) =>
          if hh ≤ 23 && mm ≤ 59 then
            some (some (if c = '-' then -((hh * 60 + mm : Nat) : Int) else ((hh * 60 + mm : Nat) : Int)))
          else none
        | _, _ => none
      | [h1, h2, m1, m2] =>
        match twoDigits [h1, h2], twoDigits [m1, m2] with
        | some (hh, _), some (mm, _) =>
          if hh ≤ 23 && mm ≤ 59 then
            some (some (if c = '-' then -((hh * 60 + mm : Nat) : Int) else ((hh * 60 + mm : Nat) : Int)))
          else none
        | _, _ => none
      | _ => none
    else none

/-- Microseconds denoted by a fractional-second digit run (at most six digits). -/
def microOf (frac : List Char) : Nat :=
  (frac.foldl (fun a c => a * 10 + digitVal c) 0) * 10 ^ (6 - frac.length)

/-- Parse `HH:MM[:SS[.ffffff]]` followed by an optional UTC offset. -/
def parseTimePart (l : List Char) : Option (Nat × Nat × Nat × Nat × Option Int) :=
  match twoDigits l with
  | none => none
  | some (h, r1) =>
    match r1 with
    | ':' :: r2 =>
      match twoDigits r2 with
      | none => none
      | some (mi, r3) =>
        if h ≤ 23 && mi ≤ 59 then
          match r3 with
          | ':' :: r4 =>
            match twoDigits r4 with
            | none => none
            | some (s, r5) =>
              if s ≤ 59 then
                match r5 with
                | '.' :: r6 =>
                  let frac := r6.takeWhile Char.isDigit
                  let r7 := r6.dropWhile Char.isDigit
                  if frac.length != 0 && frac.length ≤ 6 then
                    match parseTZPart r7 with
                    | some tz => some (h, mi, s, microOf frac, tz)
                    | none => none
                  else none
                | _ =>
                  match parseTZPart r5 with
                  | some tz => some (h, mi, s, 0, tz)
                  | none => none
              else none
          | _ =>
            match parseTZPart r3 with
            | some tz => some (h, mi, 0, 0, tz)
            | none => none
        else none
    | _ => none

/-- speedate's datetime parser (lax mode), as used by pydantic for the
`starttime`, `endtime` and `updated` fields of `Event`: a full datetime, or
a bare `YYYY-MM-DD` date which parses to midnight of that date with **no**
timezone attached. -/
def parseDT (s : String) : Option PyDateTime :=
  match parseDatePart s.toList with
  | none => none
  | some ((y, m, d), rest) =>
    match rest with
    | [] => some ⟨y, m, d, 0, 0, 0, 0, none⟩
    | c :: r2 =>
      if c = 'T' || c = 't' || c = ' ' then
        match parseTimePart r2 with
        | some (h, mi, se, us, tz) => some ⟨y, m, d, h, mi, se, us, tz⟩
        | none => none
      else none

/-! ## Email validation (pydantic v2 `EmailStr` / email-validator)

pydantic's `validate_email` strips surrounding whitespace from the input,
passes it to the email-validator library, and returns the library's
*normalized* form, in which the domain is lowercased.  This model covers
the ASCII core of the syntax (dot-atom local part, dotted LDH domain
labels); quoted local parts, internationalized forms, the name-addr form
`Name <addr>` (whose regex can only match inputs containing a literal
angle bracket) and the length caps are outside the model's scope — none of
the claims involve such inputs. -/

/-- RFC 5322 `atext` characters (ASCII): letters, digits, and the listed
punctuation code points. -/
def atextChar (c : Char) : Bool :=
  c.isAlphanum ||
    [33, 35, 36, 37, 38, 39, 42, 43, 45, 47, 61, 63, 94, 95, 96, 123, 124, 125, 126].contains c.toNat

/-- Characters admissible in a dot-atom local part. -/
def localChar (c : Char) : Bool := atextChar c || c == '.'

/-- Does the character list contain two consecutive dots? -/
def hasDoubleDot : List Char → Bool
  | '.' :: '.' :: _ => true
  | _ :: rest => hasDoubleDot rest
  | [] => false

/-- Valid dot-atom local part: nonempty, `atext` runs separated by single
dots, no leading or trailing dot. -/
def validLocalPart (l : List Char) : Bool :=
  !l.isEmpty && l.all localChar && l.head? != some '.' &&
    l.getLast? != some '.' && !hasDoubleDot l

/-- Characters admissible somewhere in a domain. -/
def domainChar (c : Char) : Bool := c.isAlphanum || c == '-' || c == '.'

/-- Valid LDH domain label: nonempty, letters/digits/hyphens, no leading or
trailing hyphen. -/
def validLabel (l : List Char) : Bool :=
  !l.isEmpty && l.all (fun c => c.isAlphanum || c == '-') &&
    l.head? != some '-' && l.getLast? != some '-'

/-- Split a character list on dots. -/
def splitOnDot : List Char → List (List Char)
  | [] => [[]]
  | '.' :: rest => [] :: splitOnDot rest
  | c :: rest =>
    match splitOnDot rest with
    | [] => [[c]]
    | h :: t => (c :: h) :: t

/-- Valid domain: valid labels separated by dots, and at least two labels
(email-validator rejects dotless domains by default). -/
def validDomain (l : List Char) : Bool :=
  !l.isEmpty && l.all domainChar && decide (2 ≤ (splitOnDot l).length) &&
    (splitOnDot l).all validLabel

/-- Split at the first at-sign, if any. -/
def splitAtFirstAt : List Char → Option (List Char × List Char)
  | [] => none
  | c :: rest =>
    if c = '@' then some ([], rest)
    else
      match splitAtFirstAt rest with
      | some p => some (c :: p.1, p.2)
      | none => none

/-- Decompose an address into local part and domain; fails unless the
input contains exactly one at-sign. -/
def emailParts (l : List Char) : Option (List Char × List Char) :=
  match splitAtFirstAt l with
  | some (lp, dp) => if dp.contains '@' then none else some (lp, dp)
  | none => none

/-- The email-validator shape check (ASCII core). -/
def validEmailShapeL (l : List Char) : Bool :=
  match emailParts l with
  | some (lp, dp) => validLocalPart lp && validDomain dp
  | none => false

/-- Shape check on strings. -/
def validEmailShapeS (s : String) : Bool := validEmailShapeL s.toList

/-- email-validator's normalized form: local part unchanged (ASCII), domain
lowercased. -/
def normalizeEmailL (l : List Char) : List Char :=
  match emailParts l with
  | some (lp, dp) => lp ++ '@' :: dp.map Char.toLower
  | none => l

/-- Normalization on strings. -/
def normalizeEmailS (s : String) : String := ⟨normalizeEmailL s.toList⟩

/-- pydantic v2 `EmailStr` validation: strip surrounding whitespace, run the
email-validator shape check on the stripped value, and return the
normalized form on success. -/
def emailstr_validate (value : String) : Except PyErr String :=
  let email := pyStrip value
  if validEmailShapeS email then Except.ok (normalizeEmailS email)
  else Except.error (PyErr.validationError "value is not a valid email address")

/-! ## The pydantic record shapes -/

/-- The normalized `Event` record of `src/main.py` (all six non-key fields
plus the identity). -/
structure Event where
  id : String
  title : String
  starttime : PyDateTime
  endtime : PyDateTime
  updated : PyDateTime
  status : String
  organizer : String
deriving DecidableEq, Repr

/-- The normalized `Attendee` record of `src/main.py`. -/
structure Attendee where
  event_id : String
  email : String
deriving DecidableEq, Repr

/-- The `strip_email` after-validator declared on `Attendee.email`: it runs
*after* the `EmailStr` type validation (pydantic `field_validator` default
mode) and strips the already-validated value. -/
def strip_email (email : String) : String := pyStrip email

/-- Constructing `Attendee(event_id=..., email=...)`: `EmailStr` validation
first, then the `strip_email` after-validator. -/
def Attendee.make (event_id email : String) : Except PyErr Attendee :=
  match emailstr_validate email with
  | Except.ok v => Except.ok ⟨event_id, strip_email v⟩
  | Except.error e => Except.error e

/-! ## Raw API records -/

/-- The `start`/`end` sub-dictionary of a raw Google Calendar event:
`dateTime` (RFC 3339), `date` (all-day), `timeZone` (IANA name); each key
may be absent. -/
structure TimeInfo where
  dateTime : Option String
  date : Option String
  timeZone : Option String
deriving DecidableEq, Repr

/-- The `organizer` sub-dictionary (only its `email` key is read). -/
structure OrganizerInfo where
  email : Option String
deriving DecidableEq, Repr

/-- One entry of the raw `attendees` list (only its `email` key is read). -/
structure AttendeeInfo where
  email : Option String
deriving DecidableEq, Repr

/-- A raw event dictionary as consumed by `process_events`.  The keys the
code reads with `[...]` and that are always present upstream (`id`,
`start`, `end`, `updated`) are plain fields; `organizer` is optional
because `event["organizer"]` raises `KeyError` when the key is absent; the
`attendees` field models `event.get("attendees", [])`, with absence of the
key represented by the empty list. -/
structure RawEvent where
  id : String
  summary : Option String
  start : TimeInfo
  «end» : TimeInfo
  updated : String
  status : Option String
  organizer : Option OrganizerInfo
  attendees : List AttendeeInfo
deriving DecidableEq, Repr

/-! ## The normalizer -/

/-- Python's `a or b` on two optional strings (`None` and `""` are falsy). -/
def pythonOrStr : Option String → Option String → Option String
  | some s, b => if s = "" then b else some s
  | none, b => b

/-- pydantic validation of a `datetime` field: `None` (both source keys
absent) and unparsable strings are validation failures. -/
def parseDatetimeField (v : Option String) : Except PyErr PyDateTime :=
  match v with
  | none => Except.error (PyErr.validationError "Input should be a valid datetime")
  | some s =>
    match parseDT s with
    | some dt => Except.ok dt
    | none => Except.error (PyErr.validationError "Input should be a valid datetime")

/-- The attendee loop of `process_events`: validate each raw attendee in
list order, aborting at the first validation failure. -/
def processAttendees (eid : String) : List AttendeeInfo → Except PyErr (List Attendee)
  | [] => Except.ok []
  | a :: rest =>
    match Attendee.make eid (a.email.getD "No Email") with
    | Except.error e => Except.error e
    | Except.ok x =>
      match processAttendees eid rest with
      | Except.error e => Except.error e
      | Except.ok xs => Except.ok (x :: xs)

/-- Normalization of one raw event, mirroring the loop body of
`process_events`: first the `event_data` dictionary is built (where the
`event["organizer"]` access raises `KeyError` if the key is absent), then
pydantic validates the `Event` fields, then the attendees are built. -/
def processOne (e : RawEvent) : Except PyErr (Event × List Attendee) :=
  match e.organizer with
  | none => Except.error PyErr.keyError
  | some orgInfo =>
    match parseDatetimeField (pythonOrStr e.start.dateTime e.start.date) with
    | Except.error err => Except.error err
    | Except.ok st =>
      match parseDatetimeField (pythonOrStr e.«end».dateTime e.«end».date) with
      | Except.error err => Except.error err
      | Except.ok en =>
        match parseDatetimeField (some e.updated) with
        | Except.error err => Except.error err
        | Except.ok up =>
          let ev : Event :=
            { id := e.id
              title := e.summary.getD "No Title"
              starttime := st
              endtime := en
              updated := up
              status := e.status.getD "No Status"
              organizer := orgInfo.email.getD "No Organizer" }
          match processAttendees ev.id e.attendees with
          | Except.error err => Except.error err
          | Except.ok atts => Except.ok (ev, atts)

/-- `process_events`: normalize the fetched sequence in order; the first
exception aborts the whole normalization (unhandled in `main`). -/
def process_events : List RawEvent → Except PyErr (List (Event × List Attendee))
  | [] => Except.ok []
  | e :: rest =>
    match processOne e with
    | Except.error err => Except.error err
    | Except.ok p =>
      match process_events rest with
      | Except.error err => Except.error err
      | Except.ok ps => Except.ok (p :: ps)

/-! ## The fetcher

The Google API client generated by `build('calendar', 'v3', ...)` checks
every keyword argument of `events().list(...)` against the parameter names
declared in the Calendar v3 discovery document and raises `TypeError` for
an unknown name — the check runs before any request is sent.  The remote
service itself is abstracted as a function from the continuation token the
API reads (its `pageToken` parameter) to a page of results. -/

/-- A Python value passed as a keyword argument. -/
inductive PyVal where
  | vstr (s : String)
  | vnat (n : Nat)
  | vbool (b : Bool)
  | vnone
deriving DecidableEq, Repr

/-- One page of an `events().list` response: its `items` and the optional
`nextPageToken`. -/
structure PageResult where
  items : List RawEvent
  nextPageToken : Option String
deriving DecidableEq, Repr

/-- The remote calendar service, abstracted: the page it serves for each
value of the `pageToken` request parameter. -/
structure CalendarApi where
  pages : Option String → PageResult

/-- Keyword-parameter names accepted by `events().list` per the Calendar v3
discovery document (the names are camelCase; in particular the list
contains `pageToken` and no `page_token`). -/
def calendarEventsListParams : List String :=
  ["calendarId", "alwaysIncludeEmail", "eventTypes", "iCalUID", "maxAttendees",
   "maxResults", "orderBy", "pageToken", "privateExtendedProperty", "q",
   "sharedExtendedProperty", "showDeleted", "showHiddenInvitations",
   "singleEvents", "syncToken", "timeMax", "timeMin", "timeZone", "updatedMin"]

/-- `service.events().list(**kwargs).execute()`: the generated client
rejects any keyword argument whose name is not a declared parameter;
otherwise the request is served, the API reading its continuation token
from the `pageToken` parameter. -/
def events_list_execute (api : CalendarApi) (kwargs : List (String × PyVal)) :
    Except PyErr PageResult :=
  match kwargs.find? (fun kv => !(calendarEventsListParams.contains kv.1)) with
  | some kv => Except.error (PyErr.typeError ("Got an unexpected keyword argument " ++ kv.1))
  | none =>
    let tok : Option String :=
      match kwargs.find? (fun kv => kv.1 == "pageToken") with
      | some (_, PyVal.vstr s) => some s
      | _ => none
    Except.ok (api.pages tok)

/-- Lift an optional string to the value Python passes (`None` when absent). -/
def optVal : Option String → PyVal
  | some s => PyVal.vstr s
  | none => PyVal.vnone

/-- The keyword arguments built by the call site inside `fetch_events`,
exactly as written in the source — the continuation token is passed under
the name `page_token`. -/
def fetch_kwargs (calendar_id : String) (time_min time_max : Option String)
    (max_results : Nat) (page_token : Option String) : List (String × PyVal) :=
  [("calendarId", PyVal.vstr calendar_id),
   ("timeMin", optVal time_min),
   ("timeMax", optVal time_max),
   ("maxResults", PyVal.vnat max_results),
   ("page_token", optVal page_token),
   ("singleEvents", PyVal.vbool true),
   ("orderBy", PyVal.vstr "startTime")]

/-- The `while True` pagination loop of `fetch_events`, bounded by fuel
(the Python loop is unbounded; any fuel larger than the number of pages
reproduces it, and `loopLimit` marks exhaustion). -/
def fetch_events_loop (api : CalendarApi) (calendar_id : String)
    (time_min time_max : Option String) (max_results : Nat)
    (page_token : Option String) (all_events : List RawEvent) :
    Nat → Except PyErr (List RawEvent)
  | 0 => Except.error PyErr.loopLimit
  | fuel + 1 =>
    match events_list_execute api
        (fetch_kwargs calendar_id time_min time_max max_results page_token) with
    | Except.error e => Except.error e
    | Except.ok res =>
      let acc := all_events ++ res.items
      match res.nextPageToken with
      | none => Except.ok acc
      | some t =>
        fetch_events_loop api calendar_id time_min time_max max_results (some t) acc fuel

/-- `fetch_events`: accumulate pages starting from `page_token = None`. -/
def fetch_events (api : CalendarApi) (calendar_id : String)
    (time_min time_max : Option String) (max_results : Nat) (fuel : Nat) :
    Except PyErr (List RawEvent) :=
  fetch_events_loop api calendar_id time_min time_max max_results none [] fuel

/-! ## The relational store

`make_migrations` creates (if absent)

* `events(event_id VARCHAR PRIMARY KEY, title, start_time, end_time,
  updated, status, organizer)` and
* `attendees(attendee_id SERIAL PRIMARY KEY, event_id VARCHAR REFERENCES
  events(event_id), email VARCHAR)`.

Note that the `attendees` table carries **no** uniqueness constraint on
`(event_id, email)`; its only unique index is the serial primary key. -/

/-- A row of the `events` table. -/
structure EventRow where
  event_id : String
  title : String
  start_time : PyDateTime
  end_time : PyDateTime
  updated : PyDateTime
  status : String
  organizer : String
deriving DecidableEq, Repr

/-- A row of the `attendees` table (`attendee_id` is the serial key). -/
structure AttendeeRow where
  attendee_id : Nat
  event_id : String
  email : String
deriving DecidableEq, Repr

/-- The database: each table is `none` while it does not exist;
`attendeeSerial` is the next value of the `attendees.attendee_id`
sequence. -/
structure DB where
  events : Option (List EventRow)
  attendees : Option (List AttendeeRow)
  attendeeSerial : Nat
deriving DecidableEq, Repr

/-- `make_migrations`: `CREATE TABLE IF NOT EXISTS` for both tables —
creating an existing table is a no-op, a fresh table starts empty with its
serial sequence at 1. -/
def make_migrations (db : DB) : DB :=
  { events := some (db.events.getD [])
    attendees := some (db.attendees.getD [])
    attendeeSerial := match db.attendees with | none => 1 | some _ => db.attendeeSerial }

/-- The row written for a normalized event. -/
def eventRowOf (e : Event) : EventRow :=
  ⟨e.id, e.title, e.starttime, e.endtime, e.updated, e.status, e.organizer⟩

/-- PostgreSQL semantics of
`INSERT INTO events ... ON CONFLICT (event_id) DO UPDATE SET <all six
mutable fields> = EXCLUDED....`: the `event_id` primary key is the arbiter;
on conflict the existing row's mutable fields are overwritten in place,
otherwise the row is appended. -/
def insertEventRow (t : List EventRow) (r : EventRow) : List EventRow :=
  if t.any (fun x => x.event_id == r.event_id) then
    t.map (fun x => if x.event_id == r.event_id then r else x)
  else t ++ [r]

/-- One SQL statement issued by `insert_into_postgres`. -/
inductive Op where
  | insEvent (r : EventRow)
  | insAttendee (eid email : String)
deriving DecidableEq, Repr

/-- Execute one statement.  For the attendee insert
(`INSERT INTO attendees (event_id, email) VALUES ... ON CONFLICT DO
NOTHING`): `ON CONFLICT` without a conflict target arbitrates over the
table's unique indexes only — here solely the serial primary key, whose
freshly drawn value never conflicts — so the statement always inserts a
row; the foreign-key check on `event_id` is *not* covered by `ON CONFLICT`
and raises on violation.  A statement against a missing table errors. -/
def applyOp (db : DB) : Op → Except PyErr DB
  | Op.insEvent r =>
    match db.events with
    | none => Except.error PyErr.undefinedTable
    | some evs => Except.ok { db with events := some (insertEventRow evs r) }
  | Op.insAttendee eid em =>
    match db.events, db.attendees with
    | some evs, some ats =>
      if evs.any (fun x => x.event_id == eid) then
        Except.ok { db with
          attendees := some (ats ++ [⟨db.attendeeSerial, eid, em⟩])
          attendeeSerial := db.attendeeSerial + 1 }
      else Except.error PyErr.foreignKeyViolation
    | _, _ => Except.error PyErr.undefinedTable

/-- Execute a statement sequence, aborting at the first error. -/
def applyOps (db : DB) : List Op → Except PyErr DB
  | [] => Except.ok db
  | op :: rest =>
    match applyOp db op with
    | Except.ok db2 => applyOps db2 rest
    | Except.error e => Except.error e

/-- The statement sequence issued by the loop of `insert_into_postgres`:
for each pair, the event upsert first, then that event's attendee inserts
in list order. -/
def upsertOps (pairs : List (Event × List Attendee)) : List Op :=
  pairs.flatMap (fun p =>
    Op.insEvent (eventRowOf p.1) :: p.2.map (fun a => Op.insAttendee a.event_id a.email))

/-- `insert_into_postgres`: execute the statement sequence. -/
def insert_into_postgres (db : DB) (pairs : List (Event × List Attendee)) :
    Except PyErr DB :=
  applyOps db (upsertOps pairs)

/-- The foreign-key invariant: every attendee row references an existing
event row. -/
def fkInvB (db : DB) : Bool :=
  (db.attendees.getD []).all (fun a =>
    (db.events.getD []).any (fun r => r.event_id == a.event_id))

/-- Outcome of one run of `main` after the fetch: the durable database
state and the exception that aborted the run, if any. -/
structure RunResult where
  db : DB
  err : Option PyErr
deriving DecidableEq, Repr

/-- The run structure of `main` downstream of the fetch (the fetch outcome
is abstracted as the `raw_events` input): `make_migrations` runs and
commits first; `process_events` runs next and an exception there aborts
the run before `insert_into_postgres` is invoked; the insert statements
form one transaction committed at the end of `insert_into_postgres`, so an
error there rolls back to the state committed by the migrations. -/
def run_pipeline (db0 : DB) (raw_events : List RawEvent) : RunResult :=
  let db1 := make_migrations db0
  match process_events raw_events with
  | Except.error e => ⟨db1, some e⟩
  | Except.ok pairs =>
    match insert_into_postgres db1 pairs with
    | Except.ok db2 => ⟨db2, none⟩
    | Except.error e => ⟨db1, some e⟩

/-- Modelled from the spec: "fall back to a date-only field (all-day
event) and treat it as a timestamp at that date", "the normalized
record's start/end timestamp equals that date at midnight in the record's
stated zone" — a timestamp at the given date's midnight carrying the
stated zone's UTC offset (in minutes). -/
def spec_midnight_in_zone (y m d : Nat) (zoneOffsetMinutes : Int) : PyDateTime :=
  ⟨y, m, d, 0, 0, 0, 0, some zoneOffsetMinutes⟩

/-! ## Concrete inputs used in the theorems below -/

/-- A fully valid raw event with two attendees, one with padded email. -/
def evGood : RawEvent :=
  { id := "e1", summary := some "Standup",
    start := ⟨some "2022-03-01T10:00:00+03:00", none, some "Europe/Moscow"⟩,
    «end» := ⟨some "2022-03-01T10:30:00+03:00", none, some "Europe/Moscow"⟩,
    updated := "2022-02-01T00:00:00Z",
    status := some "confirmed",
    organizer := some ⟨some "boss@corp.com"⟩,
    attendees := [⟨some " a@b.com "⟩, ⟨some "c@d.com"⟩] }

/-- A raw event whose `start` and `end` dictionaries carry neither
`dateTime` nor `date`. -/
def evNoTimes : RawEvent :=
  { id := "e2", summary := some "Broken",
    start := ⟨none, none, none⟩,
    «end» := ⟨none, none, none⟩,
    updated := "2022-02-01T00:00:00Z",
    status := some "confirmed",
    organizer := some ⟨some "boss@corp.com"⟩,
    attendees := [] }

/-- A raw event with an attendee entry that has no `email` key. -/
def evNoEmail : RawEvent :=
  { id := "e3", summary := some "Guests",
    start := ⟨some "2022-03-01T10:00:00+03:00", none, none⟩,
    «end» := ⟨some "2022-03-01T10:30:00+03:00", none, none⟩,
    updated := "2022-02-01T00:00:00Z",
    status := some "confirmed",
    organizer := some ⟨some "boss@corp.com"⟩,
    attendees := [⟨none⟩] }

/-- An all-day raw event whose stated zone is `Europe/Moscow` (civil UTC
offset +03:00, i.e. 180 minutes). -/
def alldayMoscow : RawEvent :=
  { id := "ad1", summary := some "Offsite",
    start := ⟨none, some "2022-03-01", some "Europe/Moscow"⟩,
    «end» := ⟨none, some "2022-03-02", some "Europe/Moscow"⟩,
    updated := "2022-02-01T00:00:00Z",
    status := some "confirmed",
    organizer := some ⟨some "boss@corp.com"⟩,
    attendees := [] }

/-- The same all-day raw event with stated zone `America/New_York` (civil
UTC offset −05:00 in March standard time). -/
def alldayNY : RawEvent :=
  { id := "ad1", summary := some "Offsite",
    start := ⟨none, some "2022-03-01", some "America/New_York"⟩,
    «end» := ⟨none, some "2022-03-02", some "America/New_York"⟩,
    updated := "2022-02-01T00:00:00Z",
    status := some "confirmed",
    organizer := some ⟨some "boss@corp.com"⟩,
    attendees := [] }

/-- A raw event whose dictionary has no `organizer` key at all. -/
def evNoOrganizer : RawEvent :=
  { id := "e4", summary := some "Orphan",
    start := ⟨some "2022-03-01T10:00:00Z", none, none⟩,
    «end» := ⟨some "2022-03-01T11:00:00Z", none, none⟩,
    updated := "2022-02-01T00:00:00Z",
    status := some "confirmed",
    organizer := none,
    attendees := [] }

/-- A raw event missing `summary`, `status` and the organizer's `email`
(the organizer dictionary itself is present). -/
def evMissingFields : RawEvent :=
  { id := "e5", summary := none,
    start := ⟨some "2022-03-01T10:00:00Z", none, none⟩,
    «end» := ⟨some "2022-03-01T11:00:00Z", none, none⟩,
    updated := "2022-02-01T00:00:00Z",
    status := none,
    organizer := some ⟨none⟩,
    attendees := [] }

/-- A database in which both tables exist and are empty. -/
def dbEmpty : DB := ⟨some [], some [], 1⟩

/-- A concrete normalized event used for the upsert theorems. -/
def evRec : Event :=
  { id := "e1", title := "Standup",
    starttime := ⟨2022, 3, 1, 10, 0, 0, 0, some 180⟩,
    endtime := ⟨2022, 3, 1, 10, 30, 0, 0, some 180⟩,
    updated := ⟨2022, 2, 1, 0, 0, 0, 0, some 0⟩,
    status := "confirmed", organizer := "boss@corp.com" }

/-- A concrete validated attendee of `evRec`. -/
def attRec : Attendee := ⟨"e1", "a@b.com"⟩

/-- A remote service serving two pages linked by a continuation token:
the first page (no token) carries `evGood` and token `page2`, the second
page carries `alldayMoscow` and no token. -/
def apiTwoPages : CalendarApi :=
  ⟨fun t => match t with
    | none => ⟨[evGood], some "page2"⟩
    | some _ => ⟨[alldayMoscow], none⟩⟩

/-- A raw event with a valid `start` but neither `dateTime` nor `date`
under `end`. -/
def evNoEnd : RawEvent :=
  { id := "e6", summary := some "HalfBroken",
    start := ⟨some "2022-03-01T10:00:00Z", none, none⟩,
    «end» := ⟨none, none, none⟩,
    updated := "2022-02-01T00:00:00Z",
    status := some "confirmed",
    organizer := some ⟨some "boss@corp.com"⟩,
    attendees := [] }

/-- The normalized record produced for `alldayMoscow` (and `alldayNY`). -/
def evAlldayRec : Event :=
  { id := "ad1", title := "Offsite",
    starttime := ⟨2022, 3, 1, 0, 0, 0, 0, none⟩,
    endtime := ⟨2022, 3, 2, 0, 0, 0, 0, none⟩,
    updated := ⟨2022, 2, 1, 0, 0, 0, 0, some 0⟩,
    status := "confirmed", organizer := "boss@corp.com" }

/-- The normalized record produced for `evMissingFields`. -/
def evMissingRec : Event :=
  { id := "e5", title := "No Title",
    starttime := ⟨2022, 3, 1, 10, 0, 0, 0, some 0⟩,
    endtime := ⟨2022, 3, 1, 11, 0, 0, 0, some 0⟩,
    updated := ⟨2022, 2, 1, 0, 0, 0, 0, some 0⟩,
    status := "No Status", organizer := "No Organizer" }

/-- An existing row for `e1` with stale field values, used to exhibit the
overwrite semantics. -/
def staleRow : EventRow :=
  ⟨"e1", "Old title", ⟨2021, 1, 1, 0, 0, 0, 0, none⟩, ⟨2021, 1, 1, 1, 0, 0, 0, none⟩,
   ⟨2021, 1, 1, 2, 0, 0, 0, none⟩, "tentative", "old@corp.com"⟩

/-! ## Helper lemmas: characters and stripping -/

/-- The whitespace characters recognized by `Char.isWhitespace`. -/
theorem ws_cases (c : Char) (h : c.isWhitespace = true) :
    c = ' ' ∨ c = '\t' ∨ c = '\r' ∨ c = '\n' := by
  have h' := h
  simp [Char.isWhitespace] at h'
  tauto

/-- A whitespace character is not a local-part character. -/
theorem localChar_ws_false (c : Char) (h : c.isWhitespace = true) :
    localChar c = false := by
  rcases ws_cases c h with h1 | h1 | h1 | h1 <;> subst h1 <;> decide

/-- A whitespace character is not a domain character. -/
theorem domainChar_ws_false (c : Char) (h : c.isWhitespace = true) :
    domainChar c = false := by
  rcases ws_cases c h with h1 | h1 | h1 | h1 <;> subst h1 <;> decide

/-- Lowercasing preserves non-whitespace. -/
theorem toLower_not_ws (c : Char) (h : c.isWhitespace = false) :
    (Char.toLower c).isWhitespace = false := by
  show (if c.toNat ≥ 65 ∧ c.toNat ≤ 90 then Char.ofNat (c.toNat + 32) else c).isWhitespace = false
  by_cases hc : c.toNat ≥ 65 ∧ c.toNat ≤ 90
  · rw [if_pos hc]
    obtain ⟨h1, h2⟩ := hc
    have h1' : 65 ≤ c.toNat := h1
    have h2' : c.toNat ≤ 90 := h2
    generalize c.toNat = n at h1' h2' ⊢
    interval_cases n <;> decide
  · rw [if_neg hc]
    exact h

/-- `dropWhile` is the identity on a list none of whose elements satisfy
the predicate. -/
theorem dropWhile_eq_self_of_all {p : Char → Bool} {l : List Char}
    (h : ∀ c ∈ l, p c = false) : l.dropWhile p = l := by
  cases l with
  | nil => rfl
  | cons a t => simp [List.dropWhile_cons, h a (List.mem_cons_self a t)]

/-- Stripping is the identity on a whitespace-free character list. -/
theorem pyStripL_eq_self {l : List Char} (h : ∀ c ∈ l, c.isWhitespace = false) :
    pyStripL l = l := by
  unfold pyStripL
  rw [dropWhile_eq_self_of_all h, dropWhile_eq_self_of_all, List.reverse_reverse]
  intro c hc
  exact h c (List.mem_reverse.mp hc)

/-! ## Helper lemmas: email structure -/

/-- `splitAtFirstAt` decomposes its input around the first at-sign. -/
theorem splitAtFirstAt_eq {l lp dp : List Char}
    (h : splitAtFirstAt l = some (lp, dp)) : l = lp ++ '@' :: dp := by
  induction l generalizing lp with
  | nil => simp [splitAtFirstAt] at h
  | cons c rest ih =>
    rw [splitAtFirstAt] at h
    by_cases hc : c = '@'
    · rw [if_pos hc] at h
      obtain ⟨h1, h2⟩ := Prod.mk.injEq .. ▸ Option.some.injEq .. ▸ h
      subst hc
      simp only [Option.some.injEq, Prod.mk.injEq] at h
      obtain ⟨h1, h2⟩ := h
      subst h1; subst h2
      rfl
    · rw [if_neg hc] at h
      cases hs : splitAtFirstAt rest with
      | none => rw [hs] at h; cases h
      | some p =>
        rw [hs] at h
        simp only [Option.some.injEq, Prod.mk.injEq] at h
        obtain ⟨h1, h2⟩ := h
        subst h2
        cases lp with
        | nil => cases h1
        | cons x xs =>
          simp only [List.cons.injEq] at h1
          obtain ⟨hx, hxs⟩ := h1
          subst hx
          have := @ih xs (by rw [hs, ← hxs])
          simp [this]

/-- Every character of the normalized form of a shape-valid address is
non-whitespace. -/
theorem normalizeEmailL_not_ws {l : List Char} (h : validEmailShapeL l = true) :
    ∀ c ∈ normalizeEmailL l, c.isWhitespace = false := by
  unfold validEmailShapeL at h
  unfold normalizeEmailL
  cases hp : emailParts l with
  | none => rw [hp] at h; simp at h
  | some p =>
    rw [hp] at h
    obtain ⟨lp, dp⟩ := p
    dsimp only at h ⊢
    simp only [Bool.and_eq_true] at h
    obtain ⟨hlp, hdp⟩ := h
    unfold validLocalPart at hlp
    unfold validDomain at hdp
    simp only [Bool.and_eq_true] at hlp hdp
    have hlpc : ∀ c ∈ lp, localChar c = true := List.all_eq_true.mp hlp.1.1.1.2
    have hdpc : ∀ c ∈ dp, domainChar c = true := List.all_eq_true.mp hdp.1.1.2
    intro c hc
    rcases List.mem_append.mp hc with hmem | hmem
    · cases hcw : c.isWhitespace
      · rfl
      · have := localChar_ws_false c hcw
        rw [hlpc c hmem] at this
        cases this
    · rcases List.mem_cons.mp hmem with hat | hmem2
      · subst hat; decide
      · obtain ⟨d, hd, hmap⟩ := List.mem_map.mp hmem2
        subst hmap
        apply toLower_not_ws
        cases hdw : d.isWhitespace
        · rfl
        · have := domainChar_ws_false d hdw
          rw [hdpc d hd] at this
          cases this

/-- Stripping is a no-op on the normalized form of a shape-valid address. -/
theorem pyStrip_normalizeEmail {e : String} (h : validEmailShapeS e = true) :
    pyStrip (normalizeEmailS e) = normalizeEmailS e := by
  unfold normalizeEmailS pyStrip
  have : (String.mk (normalizeEmailL e.toList)).toList = normalizeEmailL e.toList := rfl
  rw [this, pyStripL_eq_self (normalizeEmailL_not_ws h)]

/-- Inversion for a successful `Attendee` construction: the record carries
the given event id, and its stored email is the normalized stripped input
(which is shape-valid and whitespace-free). -/
theorem Attendee.make_ok {eid em : String} {a : Attendee}
    (h : Attendee.make eid em = Except.ok a) :
    a.event_id = eid ∧ a.email = normalizeEmailS (pyStrip em) ∧
      validEmailShapeS (pyStrip em) = true ∧
      ∀ c ∈ a.email.toList, c.isWhitespace = false := by
  unfold Attendee.make emailstr_validate at h
  by_cases hv : validEmailShapeS (pyStrip em) = true
  · rw [if_pos hv] at h
    simp only [Except.ok.injEq] at h
    subst h
    refine ⟨rfl, ?_, hv, ?_⟩
    · show strip_email (normalizeEmailS (pyStrip em)) = normalizeEmailS (pyStrip em)
      unfold strip_email
      exact pyStrip_normalizeEmail hv
    · show ∀ c ∈ (strip_email (normalizeEmailS (pyStrip em))).toList, c.isWhitespace = false
      unfold strip_email
      rw [pyStrip_normalizeEmail hv]
      exact normalizeEmailL_not_ws hv
  · rw [if_neg hv] at h
    cases h

/-! ## Helper lemmas: normalizer inversion -/

/-- Inversion for the attendee loop: every produced attendee carries the
given event id and a whitespace-free email, and every raw entry validated
successfully. -/
theorem processAttendees_ok {eid : String} {l : List AttendeeInfo} {res : List Attendee}
    (h : processAttendees eid l = Except.ok res) :
    (∀ a ∈ res, a.event_id = eid ∧ ∀ c ∈ a.email.toList, c.isWhitespace = false) ∧
      (∀ ai ∈ l, ∃ x, Attendee.make eid (ai.email.getD "No Email") = Except.ok x) := by
  induction l generalizing res with
  | nil =>
    unfold processAttendees at h
    simp only [Except.ok.injEq] at h
    subst h
    exact ⟨by simp, by simp⟩
  | cons a rest ih =>
    unfold processAttendees at h
    cases hm : Attendee.make eid (a.email.getD "No Email") with
    | error e => rw [hm] at h; simp at h
    | ok x =>
      rw [hm] at h
      cases hr : processAttendees eid rest with
      | error e => rw [hr] at h; simp at h
      | ok xs =>
        rw [hr] at h
        simp only [Except.ok.injEq] at h
        subst h
        obtain ⟨ih1, ih2⟩ := ih hr
        constructor
        · intro b hb
          rcases List.mem_cons.mp hb with hbx | hbm
          · subst hbx
            obtain ⟨h1, _, _, h4⟩ := Attendee.make_ok hm
            exact ⟨h1, h4⟩
          · exact ih1 b hbm
        · intro ai hai
          rcases List.mem_cons.mp hai with hax | ham
          · subst hax; exact ⟨x, hm⟩
          · exact ih2 ai ham

/-- Inversion for a successful normalization of one raw event. -/
theorem processOne_ok {e : RawEvent} {ev : Event} {atts : List Attendee}
    (h : processOne e = Except.ok (ev, atts)) :
    ∃ orgInfo, e.organizer = some orgInfo ∧
      parseDatetimeField (pythonOrStr e.start.dateTime e.start.date) = Except.ok ev.starttime ∧
      parseDatetimeField (pythonOrStr e.«end».dateTime e.«end».date) = Except.ok ev.endtime ∧
      parseDatetimeField (some e.updated) = Except.ok ev.updated ∧
      ev.id = e.id ∧
      ev.title = e.summary.getD "No Title" ∧
      ev.status = e.status.getD "No Status" ∧
      ev.organizer = orgInfo.email.getD "No Organizer" ∧
      processAttendees e.id e.attendees = Except.ok atts := by
  unfold processOne at h
  cases ho : e.organizer with
  | none => rw [ho] at h; simp at h
  | some orgInfo =>
    rw [ho] at h
    cases hst : parseDatetimeField (pythonOrStr e.start.dateTime e.start.date) with
    | error err => rw [hst] at h; simp at h
    | ok st =>
      rw [hst] at h
      cases hen : parseDatetimeField (pythonOrStr e.«end».dateTime e.«end».date) with
      | error err => rw [hen] at h; simp at h
      | ok en =>
        rw [hen] at h
        cases hup : parseDatetimeField (some e.updated) with
        | error err => rw [hup] at h; simp at h
        | ok up =>
          rw [hup] at h
          dsimp only at h
          cases hat : processAttendees e.id e.attendees with
          | error err => rw [hat] at h; simp at h
          | ok atts2 =>
            rw [hat] at h
            simp only [Except.ok.injEq, Prod.mk.injEq] at h
            obtain ⟨hev, hatts⟩ := h
            subst hatts
            subst hev
            exact ⟨orgInfo, rfl, rfl, rfl, rfl, rfl, rfl, rfl, rfl, rfl⟩

/-- Inversion for a successful run of the normalizer over a sequence. -/
theorem process_events_ok {raws : List RawEvent} {pairs : List (Event × List Attendee)}
    (h : process_events raws = Except.ok pairs) :
    (∀ p ∈ pairs, ∃ e ∈ raws, processOne e = Except.ok p) ∧
      (∀ e ∈ raws, ∃ p, processOne e = Except.ok p) := by
  induction raws generalizing pairs with
  | nil =>
    unfold process_events at h
    simp only [Except.ok.injEq] at h
    subst h
    simp
  | cons e rest ih =>
    unfold process_events at h
    cases h1 : processOne e with
    | error err => rw [h1] at h; simp at h
    | ok p =>
      rw [h1] at h
      cases h2 : process_events rest with
      | error err => rw [h2] at h; simp at h
      | ok ps =>
        rw [h2] at h
        simp only [Except.ok.injEq] at h
        subst h
        obtain ⟨ih1, ih2⟩ := ih h2
        constructor
        · intro q hq
          rcases List.mem_cons.mp hq with hqp | hqm
          · subst hqp
            exact ⟨e, List.mem_cons_self e rest, h1⟩
          · obtain ⟨e2, he2, hpe⟩ := ih1 q hqm
            exact ⟨e2, List.mem_cons_of_mem e he2, hpe⟩
        · intro e2 he2
          rcases List.mem_cons.mp he2 with he | hm
          · subst he; exact ⟨p, h1⟩
          · exact ih2 e2 hm

/-- Every attendee in a normalized pair belongs to that pair's event and
carries a whitespace-free, validated email. -/
theorem process_events_pairs_wf {raws : List RawEvent}
    {pairs : List (Event × List Attendee)}
    (h : process_events raws = Except.ok pairs) :
    ∀ p ∈ pairs, ∀ a ∈ p.2, a.event_id = p.1.id ∧
      ∀ c ∈ a.email.toList, c.isWhitespace = false := by
  intro p hp a ha
  obtain ⟨e, _, hpe⟩ := (process_events_ok h).1 p hp
  obtain ⟨org, _, _, _, _, hid, _, _, _, hatt⟩ := @processOne_ok e p.1 p.2 hpe
  obtain ⟨h1, h2⟩ := (processAttendees_ok hatt).1 a ha
  exact ⟨by rw [h1, ← hid], h2⟩

/-! ## Helper lemmas: event upsert -/

/-- Upserting past a row with a different key skips it. -/
theorem insertEventRow_cons_ne {a : EventRow} {t : List EventRow} {r : EventRow}
    (h : (a.event_id == r.event_id) = false) :
    insertEventRow (a :: t) r = a :: insertEventRow t r := by
  have hane : a.event_id ≠ r.event_id := by simpa using h
  unfold insertEventRow
  rw [List.any_cons, h]
  simp only [Bool.false_or]
  cases ht : t.any (fun x => x.event_id == r.event_id) <;> simp [h, hane]

/-- Rows of an upserted table come from the old table or are the new row. -/
theorem mem_insertEventRow {x : EventRow} {t : List EventRow} {r : EventRow}
    (h : x ∈ insertEventRow t r) : x ∈ t ∨ x = r := by
  unfold insertEventRow at h
  split at h
  · obtain ⟨y, hy, hxy⟩ := List.mem_map.mp h
    by_cases hc : (y.event_id == r.event_id) = true
    · rw [if_pos hc] at hxy
      right; exact hxy.symm
    · rw [if_neg hc] at hxy
      left; rw [← hxy]; exact hy
  · rcases List.mem_append.mp h with h1 | h1
    · left; exact h1
    · right; simpa using h1

/-- A key present before an upsert is still present after it. -/
theorem insertEventRow_any_preserved {t : List EventRow} {r : EventRow} {id : String}
    (h : t.any (fun x => x.event_id == id) = true) :
    (insertEventRow t r).any (fun x => x.event_id == id) = true := by
  unfold insertEventRow
  split
  · rw [List.any_eq_true] at h ⊢
    obtain ⟨x, hx, hxid⟩ := h
    refine ⟨if x.event_id == r.event_id then r else x, List.mem_map.mpr ⟨x, hx, rfl⟩, ?_⟩
    by_cases hc : (x.event_id == r.event_id) = true
    · rw [if_pos hc]
      have hxr : x.event_id = r.event_id := by simpa using hc
      rw [← hxr]
      exact hxid
    · rw [if_neg hc]
      exact hxid
  · rw [List.any_eq_true] at h ⊢
    obtain ⟨x, hx, hxid⟩ := h
    exact ⟨x, List.mem_append.mpr (Or.inl hx), hxid⟩

/-- The upserted key is present after the upsert. -/
theorem insertEventRow_any_self {t : List EventRow} {r : EventRow} :
    (insertEventRow t r).any (fun x => x.event_id == r.event_id) = true := by
  unfold insertEventRow
  split
  · next hany =>
    rw [List.any_eq_true] at hany ⊢
    obtain ⟨x, hx, hxid⟩ := hany
    exact ⟨r, List.mem_map.mpr ⟨x, hx, by rw [if_pos hxid]⟩, by simp⟩
  · rw [List.any_eq_true]
    exact ⟨r, List.mem_append.mpr (Or.inr (by simp)), by simp⟩

/-- The conflict-update map is the identity when no row matches the key. -/
theorem map_upsert_id {t : List EventRow} {r : EventRow}
    (h : ∀ x ∈ t, (x.event_id == r.event_id) = false) :
    t.map (fun x => if x.event_id == r.event_id then r else x) = t := by
  induction t with
  | nil => rfl
  | cons a t ih =>
    rw [List.map_cons, ih (fun x hx => h x (List.mem_cons_of_mem a hx))]
    simp [h a (List.mem_cons_self a t)]

/-- Content of the event upsert on a table with unique keys: the key's row
is exactly the new row, all other rows are untouched, and keys stay
unique. -/
theorem upsert_filter_spec (t : List EventRow) (r : EventRow)
    (h : (t.map (fun x => x.event_id)).Nodup) :
    (insertEventRow t r).filter (fun x => x.event_id == r.event_id) = [r] ∧
    (insertEventRow t r).filter (fun x => x.event_id != r.event_id) =
      t.filter (fun x => x.event_id != r.event_id) ∧
    ((insertEventRow t r).map (fun x => x.event_id)).Nodup := by
  induction t with
  | nil => refine ⟨?_, ?_, ?_⟩ <;> simp [insertEventRow]
  | cons a t ih =>
    rw [List.map_cons, List.nodup_cons] at h
    obtain ⟨ha, ht⟩ := h
    by_cases hae : (a.event_id == r.event_id) = true
    · have haeq : a.event_id = r.event_id := by simpa using hae
      have hnone : ∀ x ∈ t, (x.event_id == r.event_id) = false := by
        intro x hx
        cases hxe : x.event_id == r.event_id
        · rfl
        · exfalso
          apply ha
          have hxeq : x.event_id = r.event_id := by simpa using hxe
          exact List.mem_map.mpr ⟨x, hx, by rw [hxeq, ← haeq]⟩
      have hres : insertEventRow (a :: t) r = r :: t := by
        unfold insertEventRow
        rw [List.any_cons, hae]
        simp only [Bool.true_or, if_true]
        rw [List.map_cons, if_pos hae, map_upsert_id hnone]
      rw [hres]
      refine ⟨?_, ?_, ?_⟩
      · rw [List.filter_cons]
        simp only [beq_self_eq_true, if_true]
        rw [List.filter_eq_nil_iff.mpr (fun x hx => by simp [hnone x hx])]
      · rw [List.filter_cons, List.filter_cons]
        simp [haeq]
      · rw [List.map_cons, List.nodup_cons]
        exact ⟨by rw [← haeq]; exact ha, ht⟩
    · have hae' : (a.event_id == r.event_id) = false := by
        cases hx : a.event_id == r.event_id
        · rfl
        · exact absurd hx hae
      obtain ⟨f1, f2, f3⟩ := ih ht
      rw [insertEventRow_cons_ne hae']
      refine ⟨?_, ?_, ?_⟩
      · rw [List.filter_cons, hae']
        simpa using f1
      · rw [List.filter_cons, List.filter_cons]
        simp only [hae', bne_iff_ne]
        have hane : a.event_id ≠ r.event_id := by simpa using hae'
        simp [hane, f2]
      · rw [List.map_cons, List.nodup_cons]
        refine ⟨?_, f3⟩
        intro hmem
        obtain ⟨y, hy, hye⟩ := List.mem_map.mp hmem
        rcases mem_insertEventRow hy with hyt | hyr
        · exact ha (List.mem_map.mpr ⟨y, hyt, hye⟩)
        · rw [hyr] at hye
          rw [← hye] at hae'
          simp at hae'

/-! ## Helper lemmas: statement sequences -/

/-- Unfolding equation for `applyOps` on a nonempty sequence. -/
theorem applyOps_cons (db : DB) (op : Op) (rest : List Op) :
    applyOps db (op :: rest) =
      match applyOp db op with
      | Except.ok db2 => applyOps db2 rest
      | Except.error e => Except.error e := rfl

/-- Executing a concatenation, given the first part succeeds. -/
theorem applyOps_append {db db1 : DB} {l1 : List Op}
    (h : applyOps db l1 = Except.ok db1) (l2 : List Op) :
    applyOps db (l1 ++ l2) = applyOps db1 l2 := by
  induction l1 generalizing db with
  | nil =>
    unfold applyOps at h
    simp only [Except.ok.injEq] at h
    subst h
    rfl
  | cons op rest ih =>
    cases hop : applyOp db op with
    | error e =>
      rw [applyOps_cons, hop] at h
      simp at h
    | ok db2 =>
      rw [applyOps_cons, hop] at h
      dsimp only at h
      rw [List.cons_append, applyOps_cons, hop]
      dsimp only
      exact ih h

/-- Any prefix of one event's attendee-insert block succeeds and preserves
the foreign-key invariant, provided the event's key is present and every
attendee of the block references it. -/
theorem applyOps_attendee_prefix (eid : String) (atts : List Attendee) :
    ∀ (n : Nat) (evs : List EventRow) (ats : List AttendeeRow) (k : Nat),
    evs.any (fun x => x.event_id == eid) = true →
    (∀ a ∈ atts, a.event_id = eid) →
    fkInvB ⟨some evs, some ats, k⟩ = true →
    ∃ ats2 k2,
      applyOps ⟨some evs, some ats, k⟩
          ((atts.map (fun a => Op.insAttendee a.event_id a.email)).take n) =
        Except.ok ⟨some evs, some ats2, k2⟩ ∧
      fkInvB ⟨some evs, some ats2, k2⟩ = true := by
  induction atts with
  | nil =>
    intro n evs ats k _ _ hinv
    exact ⟨ats, k, by simp [applyOps], hinv⟩
  | cons a rest ih =>
    intro n evs ats k hev hwf hinv
    cases n with
    | zero => exact ⟨ats, k, by simp [applyOps], hinv⟩
    | succ n =>
      rw [List.map_cons, List.take_succ_cons]
      have haid : a.event_id = eid := hwf a (List.mem_cons_self a rest)
      have hany : evs.any (fun x => x.event_id == a.event_id) = true := by
        rw [haid]; exact hev
      have happ : applyOp ⟨some evs, some ats, k⟩ (Op.insAttendee a.event_id a.email) =
          Except.ok ⟨some evs, some (ats ++ [⟨k, a.event_id, a.email⟩]), k + 1⟩ := by
        unfold applyOp
        dsimp only
        rw [if_pos hany]
      have hinv2 : fkInvB ⟨some evs, some (ats ++ [⟨k, a.event_id, a.email⟩]), k + 1⟩ = true := by
        unfold fkInvB at hinv ⊢
        simp only [Option.getD_some] at hinv ⊢
        rw [List.all_append]
        simp only [Bool.and_eq_true]
        exact ⟨hinv, by simp [hany]⟩
      unfold applyOps
      rw [happ]
      exact ih n evs (ats ++ [⟨k, a.event_id, a.email⟩]) (k + 1) hev
        (fun b hb => hwf b (List.mem_cons_of_mem a hb)) hinv2

/-- Any prefix of the upserter's statement sequence succeeds and preserves
the foreign-key invariant, provided every attendee of each pair references
that pair's event. -/
theorem applyOps_upsert_prefix (pairs : List (Event × List Attendee)) :
    ∀ (n : Nat) (evs : List EventRow) (ats : List AttendeeRow) (k : Nat),
    fkInvB ⟨some evs, some ats, k⟩ = true →
    (∀ p ∈ pairs, ∀ a ∈ p.2, a.event_id = p.1.id) →
    ∃ evs2 ats2 k2,
      applyOps ⟨some evs, some ats, k⟩ ((upsertOps pairs).take n) =
        Except.ok ⟨some evs2, some ats2, k2⟩ ∧
      fkInvB ⟨some evs2, some ats2, k2⟩ = true := by
  induction pairs with
  | nil =>
    intro n evs ats k hinv _
    exact ⟨evs, ats, k, by simp [upsertOps, applyOps], hinv⟩
  | cons p rest ih =>
    intro n evs ats k hinv hwf
    obtain ⟨ev, atts⟩ := p
    have hops : upsertOps ((ev, atts) :: rest) =
        Op.insEvent (eventRowOf ev) ::
          (atts.map (fun a => Op.insAttendee a.event_id a.email) ++ upsertOps rest) := by
      simp [upsertOps]
    rw [hops]
    cases n with
    | zero => exact ⟨evs, ats, k, by simp [applyOps], hinv⟩
    | succ n =>
      rw [List.take_succ_cons]
      have happ : applyOp ⟨some evs, some ats, k⟩ (Op.insEvent (eventRowOf ev)) =
          Except.ok ⟨some (insertEventRow evs (eventRowOf ev)), some ats, k⟩ := rfl
      have hinv1 : fkInvB ⟨some (insertEventRow evs (eventRowOf ev)), some ats, k⟩ = true := by
        unfold fkInvB at hinv ⊢
        dsimp only at hinv ⊢
        rw [List.all_eq_true] at hinv ⊢
        intro a ha2
        exact insertEventRow_any_preserved (hinv a ha2)
      unfold applyOps
      rw [happ]
      dsimp only
      rw [List.take_append_eq_append_take]
      have hself : (insertEventRow evs (eventRowOf ev)).any
          (fun x => x.event_id == ev.id) = true := insertEventRow_any_self
      obtain ⟨ats2, k2, hA, hinvA⟩ :=
        applyOps_attendee_prefix ev.id atts n
          (insertEventRow evs (eventRowOf ev)) ats k hself
          (fun a ha2 => hwf (ev, atts) (List.mem_cons_self (ev, atts) rest) a ha2) hinv1
      obtain ⟨evs3, ats3, k3, hB, hinvB⟩ :=
        ih (n - (atts.map (fun a => Op.insAttendee a.event_id a.email)).length)
          (insertEventRow evs (eventRowOf ev)) ats2 k2 hinvA
          (fun q hq a ha2 => hwf q (List.mem_cons_of_mem (ev, atts) hq) a ha2)
      exact ⟨evs3, ats3, k3, by rw [applyOps_append hA, hB], hinvB⟩

/-! ## Claim theorems -/

/-- C1 (code bug evidence): re-upserting the identical (event, attendee)
pair is **not** a no-op on the schema `make_migrations` creates.  The
`attendees` table's only unique index is the serial primary key, so the
`ON CONFLICT DO NOTHING` of the attendee insert has no arbiter that could
ever fire: inserting the pair `("e1", "a@b.com")` into a store already
holding it yields a second row for the same pair (count 2, not 1),
contradicting the claimed duplicate suppression. -/
theorem c1_attendee_pair_duplicated :
    insert_into_postgres dbEmpty [(evRec, [attRec])] =
      Except.ok ⟨some [eventRowOf evRec], some [⟨1, "e1", "a@b.com"⟩], 2⟩ ∧
    insert_into_postgres ⟨some [eventRowOf evRec], some [⟨1, "e1", "a@b.com"⟩], 2⟩
        [(evRec, [attRec])] =
      Except.ok ⟨some [eventRowOf evRec],
        some [⟨1, "e1", "a@b.com"⟩, ⟨2, "e1", "a@b.com"⟩], 3⟩ ∧
    ([(⟨1, "e1", "a@b.com"⟩ : AttendeeRow), ⟨2, "e1", "a@b.com"⟩].countP
        (fun a => a.event_id == "e1" && a.email == "a@b.com")) = 2 := by
  exact ⟨rfl, rfl, rfl⟩

/-- C2 (counterexample): for the input `" user@EXAMPLE.com "` — whose
stripped form is a valid email shape — validation succeeds but the stored
email is `"user@example.com"`, the email-validator *normalized* form with
the domain lowercased, which differs from the trimmed form
`"user@EXAMPLE.com"`.  So "the stored email is the trimmed form" fails as
a universal statement. -/
theorem c2_counterexample :
    validEmailShapeS (pyStrip " user@EXAMPLE.com ") = true ∧
    pyStrip " user@EXAMPLE.com " = "user@EXAMPLE.com" ∧
    Attendee.make "e1" " user@EXAMPLE.com " = Except.ok ⟨"e1", "user@example.com"⟩ ∧
    ("user@example.com" : String) ≠ "user@EXAMPLE.com" := by
  refine ⟨rfl, rfl, rfl, by decide⟩

/-- C2 (amended): for every attendee email string whose stripped form is a
valid email shape, validation succeeds — pydantic's `EmailStr` pipeline
strips surrounding whitespace *before* the shape check is decided — and
the stored email is the email-validator normalization of the trimmed form
(domain lowercased); in particular it equals the trimmed form exactly when
the trimmed form is already normalized. -/
theorem c2_amended_trim_normalize (eid s : String)
    (h : validEmailShapeS (pyStrip s) = true) :
    Attendee.make eid s = Except.ok ⟨eid, normalizeEmailS (pyStrip s)⟩ ∧
    (normalizeEmailS (pyStrip s) = pyStrip s →
      Attendee.make eid s = Except.ok ⟨eid, pyStrip s⟩) := by
  have hmk : Attendee.make eid s =
      Except.ok ⟨eid, strip_email (normalizeEmailS (pyStrip s))⟩ := by
    unfold Attendee.make emailstr_validate
    rw [if_pos h]
  have hstrip : strip_email (normalizeEmailS (pyStrip s)) = normalizeEmailS (pyStrip s) := by
    unfold strip_email
    exact pyStrip_normalizeEmail h
  constructor
  · rw [hmk, hstrip]
  · intro heq
    rw [hmk, hstrip, heq]

/-- C2 (witness): the amended statement applied to `" a@b.com "`. -/
theorem c2_witness :
    validEmailShapeS (pyStrip " a@b.com ") = true ∧
    (Attendee.make "e1" " a@b.com " =
        Except.ok ⟨"e1", normalizeEmailS (pyStrip " a@b.com ")⟩ ∧
      (normalizeEmailS (pyStrip " a@b.com ") = pyStrip " a@b.com " →
        Attendee.make "e1" " a@b.com " = Except.ok ⟨"e1", pyStrip " a@b.com "⟩)) :=
  ⟨rfl, c2_amended_trim_normalize "e1" " a@b.com " rfl⟩

/-- C3 (counterexample): the all-day event with stated zone
`Europe/Moscow` (civil UTC offset +03:00 = 180 minutes) normalizes to a
*naive* midnight — no UTC offset at all — which is not the timestamp at
that date's midnight in the stated zone; and the result is identical under
stated zone `America/New_York`, so the stated zone is ignored entirely. -/
theorem c3_counterexample :
    processOne alldayMoscow = Except.ok (evAlldayRec, []) ∧
    evAlldayRec.starttime = ⟨2022, 3, 1, 0, 0, 0, 0, none⟩ ∧
    evAlldayRec.starttime ≠ spec_midnight_in_zone 2022 3 1 180 ∧
    processOne alldayNY = Except.ok (evAlldayRec, []) := by
  refine ⟨rfl, rfl, by decide, rfl⟩

/-- C3 (amended): start/end resolution prefers the `dateTime` field (a
non-empty `dateTime` decides the timestamp and the `date` field is
ignored); with `dateTime` absent the `date` field yields, for starttime
and for endtime alike, that date's midnight as a naive timestamp,
regardless of the record's stated zone; a record carrying neither field
for start (or for end) is a validation failure. -/
theorem c3_amended_time_resolution :
    (∀ (e : RawEvent) (s : String) (ev : Event) (atts : List Attendee),
      e.start.dateTime = some s → s ≠ "" →
      processOne e = Except.ok (ev, atts) → parseDT s = some ev.starttime) ∧
    (∀ (e : RawEvent) (s : String) (ev : Event) (atts : List Attendee),
      e.«end».dateTime = some s → s ≠ "" →
      processOne e = Except.ok (ev, atts) → parseDT s = some ev.endtime) ∧
    (∀ (e : RawEvent) (d : String) (y m dd : Nat) (ev : Event) (atts : List Attendee),
      e.start.dateTime = none → e.start.date = some d →
      parseDatePart d.toList = some ((y, m, dd), []) →
      processOne e = Except.ok (ev, atts) →
      ev.starttime = ⟨y, m, dd, 0, 0, 0, 0, none⟩) ∧
    (∀ (e : RawEvent) (d : String) (y m dd : Nat) (ev : Event) (atts : List Attendee),
      e.«end».dateTime = none → e.«end».date = some d →
      parseDatePart d.toList = some ((y, m, dd), []) →
      processOne e = Except.ok (ev, atts) →
      ev.endtime = ⟨y, m, dd, 0, 0, 0, 0, none⟩) ∧
    (∀ (e : RawEvent) (o : OrganizerInfo),
      e.organizer = some o →
      e.start.dateTime = none → e.start.date = none →
      processOne e = Except.error (PyErr.validationError "Input should be a valid datetime")) ∧
    (∀ (e : RawEvent) (o : OrganizerInfo) (st : PyDateTime),
      e.organizer = some o →
      parseDatetimeField (pythonOrStr e.start.dateTime e.start.date) = Except.ok st →
      e.«end».dateTime = none → e.«end».date = none →
      processOne e = Except.error (PyErr.validationError "Input should be a valid datetime")) := by
  refine ⟨?_, ?_, ?_, ?_, ?_, ?_⟩
  · intro e s ev atts hdt hne hok
    obtain ⟨org, _, hst, _⟩ := processOne_ok hok
    rw [hdt] at hst
    unfold pythonOrStr at hst
    dsimp only at hst
    rw [if_neg hne] at hst
    unfold parseDatetimeField at hst
    dsimp only at hst
    cases hp : parseDT s with
    | none => rw [hp] at hst; cases hst
    | some dt =>
      rw [hp] at hst
      simp only [Except.ok.injEq] at hst
      rw [hst]
  · intro e s ev atts hdt hne hok
    obtain ⟨org, _, _, hen, _⟩ := processOne_ok hok
    rw [hdt] at hen
    unfold pythonOrStr at hen
    dsimp only at hen
    rw [if_neg hne] at hen
    unfold parseDatetimeField at hen
    dsimp only at hen
    cases hp : parseDT s with
    | none => rw [hp] at hen; cases hen
    | some dt =>
      rw [hp] at hen
      simp only [Except.ok.injEq] at hen
      rw [hen]
  · intro e d y m dd ev atts hdt hdate hparse hok
    obtain ⟨org, _, hst, _⟩ := processOne_ok hok
    rw [hdt, hdate] at hst
    unfold pythonOrStr at hst
    dsimp only at hst
    unfold parseDatetimeField at hst
    dsimp only at hst
    have hp : parseDT d = some ⟨y, m, dd, 0, 0, 0, 0, none⟩ := by
      unfold parseDT
      rw [hparse]
    rw [hp] at hst
    simp only [Except.ok.injEq] at hst
    rw [← hst]
  · intro e d y m dd ev atts hdt hdate hparse hok
    obtain ⟨org, _, _, hen, _⟩ := processOne_ok hok
    rw [hdt, hdate] at hen
    unfold pythonOrStr at hen
    dsimp only at hen
    unfold parseDatetimeField at hen
    dsimp only at hen
    have hp : parseDT d = some ⟨y, m, dd, 0, 0, 0, 0, none⟩ := by
      unfold parseDT
      rw [hparse]
    rw [hp] at hen
    simp only [Except.ok.injEq] at hen
    rw [← hen]
  · intro e o ho hdt hdate
    unfold processOne
    rw [ho, hdt, hdate]
    rfl
  · intro e o st ho hst hdt hdate
    unfold processOne
    rw [ho, hst]
    dsimp only
    rw [hdt, hdate]
    rfl

/-- C3 (witness): the amended resolution applied to concrete events — a
timed event (dateTime preferred), the all-day Moscow event (naive
midnight), and events missing both fields for start resp. end. -/
theorem c3_witness :
    parseDT "2022-03-01T10:00:00+03:00" = some evRec.starttime ∧
    parseDT "2022-03-01T10:30:00+03:00" = some evRec.endtime ∧
    evAlldayRec.starttime = ⟨2022, 3, 1, 0, 0, 0, 0, none⟩ ∧
    evAlldayRec.endtime = ⟨2022, 3, 2, 0, 0, 0, 0, none⟩ ∧
    processOne evNoTimes =
      Except.error (PyErr.validationError "Input should be a valid datetime") ∧
    processOne evNoEnd =
      Except.error (PyErr.validationError "Input should be a valid datetime") :=
  ⟨c3_amended_time_resolution.1 evGood "2022-03-01T10:00:00+03:00" evRec
      [⟨"e1", "a@b.com"⟩, ⟨"e1", "c@d.com"⟩] rfl (by decide) rfl,
   c3_amended_time_resolution.2.1 evGood "2022-03-01T10:30:00+03:00" evRec
      [⟨"e1", "a@b.com"⟩, ⟨"e1", "c@d.com"⟩] rfl (by decide) rfl,
   c3_amended_time_resolution.2.2.1 alldayMoscow "2022-03-01" 2022 3 1 evAlldayRec []
      rfl rfl rfl rfl,
   c3_amended_time_resolution.2.2.2.1 alldayMoscow "2022-03-02" 2022 3 2 evAlldayRec []
      rfl rfl rfl rfl,
   c3_amended_time_resolution.2.2.2.2.1 evNoTimes ⟨some "boss@corp.com"⟩ rfl rfl rfl,
   c3_amended_time_resolution.2.2.2.2.2 evNoEnd ⟨some "boss@corp.com"⟩
      ⟨2022, 3, 1, 10, 0, 0, 0, some 0⟩ rfl rfl rfl rfl⟩

/-- C4 (counterexample): a raw event whose `organizer` key is absent does
**not** normalize with the `"No Organizer"` placeholder — the
`event["organizer"]` access raises `KeyError` and the whole run fails. -/
theorem c4_counterexample :
    evNoOrganizer.organizer = none ∧
    process_events [evNoOrganizer] = Except.error PyErr.keyError := ⟨rfl, rfl⟩

/-- C4 (amended): when normalization succeeds, a missing `summary` yields
title `"No Title"`, a missing `status` yields `"No Status"`, and a present
organizer dictionary without an `email` key yields `"No Organizer"`; but
an event whose organizer dictionary is absent entirely fails with
`KeyError` instead of normalizing. -/
theorem c4_amended_placeholders :
    (∀ (e : RawEvent) (ev : Event) (atts : List Attendee),
      e.summary = none → processOne e = Except.ok (ev, atts) → ev.title = "No Title") ∧
    (∀ (e : RawEvent) (ev : Event) (atts : List Attendee),
      e.status = none → processOne e = Except.ok (ev, atts) → ev.status = "No Status") ∧
    (∀ (e : RawEvent) (o : OrganizerInfo) (ev : Event) (atts : List Attendee),
      e.organizer = some o → o.email = none →
      processOne e = Except.ok (ev, atts) → ev.organizer = "No Organizer") ∧
    (∀ (e : RawEvent), e.organizer = none → processOne e = Except.error PyErr.keyError) := by
  refine ⟨?_, ?_, ?_, ?_⟩
  · intro e ev atts hs hok
    obtain ⟨org, _, _, _, _, _, htitle, _⟩ := processOne_ok hok
    rw [htitle, hs]
    rfl
  · intro e ev atts hs hok
    obtain ⟨org, _, _, _, _, _, _, hstatus, _⟩ := processOne_ok hok
    rw [hstatus, hs]
    rfl
  · intro e o ev atts ho hoe hok
    obtain ⟨org, horg, _, _, _, _, _, _, horgem, _⟩ := processOne_ok hok
    rw [ho] at horg
    simp only [Option.some.injEq] at horg
    rw [horgem, ← horg, hoe]
    rfl
  · intro e ho
    unfold processOne
    rw [ho]

/-- C4 (witness): the amended statement applied to `evMissingFields`
(missing summary, status and organizer email) and to `evNoOrganizer`. -/
theorem c4_witness :
    evMissingRec.title = "No Title" ∧
    evMissingRec.status = "No Status" ∧
    evMissingRec.organizer = "No Organizer" ∧
    processOne evNoOrganizer = Except.error PyErr.keyError :=
  ⟨c4_amended_placeholders.1 evMissingFields evMissingRec [] rfl rfl,
   c4_amended_placeholders.2.1 evMissingFields evMissingRec [] rfl rfl,
   c4_amended_placeholders.2.2.1 evMissingFields ⟨none⟩ evMissingRec [] rfl rfl rfl,
   c4_amended_placeholders.2.2.2 evNoOrganizer rfl⟩

/-- C5 (code bug evidence): the fetcher never follows the continuation
token — in fact it never completes a single request.  The call site passes
the token under the keyword `page_token`, but the Calendar v3 client only
accepts `pageToken`; the generated client rejects the unknown keyword with
`TypeError` before any request is sent, so against a service serving two
token-linked pages the fetcher returns that error instead of the
concatenation of the pages. -/
theorem c5_fetch_pagination_broken :
    apiTwoPages.pages none = ⟨[evGood], some "page2"⟩ ∧
    apiTwoPages.pages (some "page2") = ⟨[alldayMoscow], none⟩ ∧
    fetch_events apiTwoPages "primary" (some "2022-03-01T00:00:00Z")
        (some "2099-12-31T00:00:00Z") 2500 5 =
      Except.error (PyErr.typeError "Got an unexpected keyword argument page_token") ∧
    fetch_events apiTwoPages "primary" (some "2022-03-01T00:00:00Z")
        (some "2099-12-31T00:00:00Z") 2500 5 ≠
      Except.ok ([evGood] ++ [alldayMoscow]) := by
  refine ⟨rfl, rfl, rfl, ?_⟩
  intro hcontr
  have h3 : fetch_events apiTwoPages "primary" (some "2022-03-01T00:00:00Z")
      (some "2099-12-31T00:00:00Z") 2500 5 =
      Except.error (PyErr.typeError "Got an unexpected keyword argument page_token") := rfl
  rw [h3] at hcontr
  exact Except.noConfusion hcontr

/-- C6 (confirmed): upserting a normalized event into an events table with
unique keys leaves exactly the new row (all mutable fields overwritten)
under that id, leaves every other row untouched, and keys remain unique —
so repeated upserts can never create a second row for an id. -/
theorem c6_event_upsert_overwrites (t : List EventRow) (e : Event)
    (h : (t.map (fun x => x.event_id)).Nodup) :
    (insertEventRow t (eventRowOf e)).filter
        (fun x => x.event_id == (eventRowOf e).event_id) = [eventRowOf e] ∧
    (insertEventRow t (eventRowOf e)).filter
        (fun x => x.event_id != (eventRowOf e).event_id) =
      t.filter (fun x => x.event_id != (eventRowOf e).event_id) ∧
    ((insertEventRow t (eventRowOf e)).map (fun x => x.event_id)).Nodup :=
  upsert_filter_spec t (eventRowOf e) h

/-- C6 (witness): upserting the refreshed `e1` over a stale `e1` row. -/
theorem c6_witness :
    (([staleRow] : List EventRow).map (fun x => x.event_id)).Nodup ∧
    ((insertEventRow [staleRow] (eventRowOf evRec)).filter
        (fun x => x.event_id == (eventRowOf evRec).event_id) = [eventRowOf evRec] ∧
      (insertEventRow [staleRow] (eventRowOf evRec)).filter
          (fun x => x.event_id != (eventRowOf evRec).event_id) =
        [staleRow].filter (fun x => x.event_id != (eventRowOf evRec).event_id) ∧
      ((insertEventRow [staleRow] (eventRowOf evRec)).map (fun x => x.event_id)).Nodup) :=
  ⟨by decide, c6_event_upsert_overwrites [staleRow] evRec (by decide)⟩

/-- C7 (confirmed): `insert_into_postgres` issues, for each pair, the
event upsert strictly before that event's attendee inserts
(`insert_into_postgres db pairs = applyOps db (upsertOps pairs)` by
definition of the statement sequence), and therefore — for pairs produced
by `process_events` — *every* prefix of the statement sequence executes
without a foreign-key violation and leaves a state in which each attendee
row references an existing event row. -/
theorem c7_event_before_attendees {raws : List RawEvent}
    {pairs : List (Event × List Attendee)}
    (h : process_events raws = Except.ok pairs)
    (evs : List EventRow) (ats : List AttendeeRow) (k : Nat)
    (hinv : fkInvB ⟨some evs, some ats, k⟩ = true) (n : Nat) :
    insert_into_postgres ⟨some evs, some ats, k⟩ pairs =
        applyOps ⟨some evs, some ats, k⟩ (upsertOps pairs) ∧
    ∃ evs2 ats2 k2,
      applyOps ⟨some evs, some ats, k⟩ ((upsertOps pairs).take n) =
        Except.ok ⟨some evs2, some ats2, k2⟩ ∧
      fkInvB ⟨some evs2, some ats2, k2⟩ = true :=
  ⟨rfl,
   applyOps_upsert_prefix pairs n evs ats k hinv
     (fun p hp a ha => ((process_events_pairs_wf h) p hp a ha).1)⟩

/-- C7 (witness): the ordering invariant on the concrete run that inserts
`evGood` into an empty store, checked at the prefix of length 2 (event
insert followed by the first attendee insert). -/
theorem c7_witness :
    process_events [evGood] =
      Except.ok [(evRec, [⟨"e1", "a@b.com"⟩, ⟨"e1", "c@d.com"⟩])] ∧
    fkInvB ⟨some [], some [], 1⟩ = true ∧
    (insert_into_postgres ⟨some [], some [], 1⟩
        [(evRec, [⟨"e1", "a@b.com"⟩, ⟨"e1", "c@d.com"⟩])] =
      applyOps ⟨some [], some [], 1⟩
        (upsertOps [(evRec, [⟨"e1", "a@b.com"⟩, ⟨"e1", "c@d.com"⟩])]) ∧
    ∃ evs2 ats2 k2,
      applyOps ⟨some [], some [], 1⟩
          ((upsertOps [(evRec, [⟨"e1", "a@b.com"⟩, ⟨"e1", "c@d.com"⟩])]).take 2) =
        Except.ok ⟨some evs2, some ats2, k2⟩ ∧
      fkInvB ⟨some evs2, some ats2, k2⟩ = true) :=
  ⟨rfl, rfl,
   @c7_event_before_attendees [evGood]
     [(evRec, [⟨"e1", "a@b.com"⟩, ⟨"e1", "c@d.com"⟩])] rfl [] [] 1 rfl 2⟩

/-- C8 (confirmed): when the fetched sequence contains a record that fails
validation, `process_events` aborts the whole normalization at the first
such failure with that record's error — it does not skip the record and
continue. -/
theorem c8_abort_on_first_invalid (pre : List RawEvent) (bad : RawEvent)
    (rest : List RawEvent) (err : PyErr)
    (hpre : ∀ e ∈ pre, ∃ v, processOne e = Except.ok v)
    (hbad : processOne bad = Except.error err) :
    process_events (pre ++ bad :: rest) = Except.error err := by
  induction pre with
  | nil =>
    rw [List.nil_append]
    unfold process_events
    rw [hbad]
  | cons e pre ih =>
    obtain ⟨v, hv⟩ := hpre e (List.mem_cons_self e pre)
    rw [List.cons_append]
    unfold process_events
    rw [hv]
    dsimp only
    rw [ih (fun e2 he2 => hpre e2 (List.mem_cons_of_mem e he2))]

/-- C8 (witness): a valid event followed by `evNoTimes` and another valid
event — the run aborts with the validation error of `evNoTimes`. -/
theorem c8_witness :
    process_events ([evGood] ++ evNoTimes :: [alldayMoscow]) =
      Except.error (PyErr.validationError "Input should be a valid datetime") :=
  c8_abort_on_first_invalid [evGood] evNoTimes [alldayMoscow]
    (PyErr.validationError "Input should be a valid datetime")
    (fun e he => by
      rw [List.mem_singleton] at he
      subst he
      exact ⟨(evRec, [⟨"e1", "a@b.com"⟩, ⟨"e1", "c@d.com"⟩]), rfl⟩)
    rfl

/-- C9 (confirmed): in the run structure of `main` (fetch outcome
abstracted as the input sequence), normalization runs to completion before
`insert_into_postgres` is invoked, so a validation failure anywhere in the
sequence aborts the run with that error and leaves the row contents of
both tables exactly as they were — no partial writes. -/
theorem c9_no_writes_on_validation_failure (db0 : DB) (raws : List RawEvent)
    (err : PyErr) (h : process_events raws = Except.error err) :
    (run_pipeline db0 raws).err = some err ∧
    (run_pipeline db0 raws).db.events.getD [] = db0.events.getD [] ∧
    (run_pipeline db0 raws).db.attendees.getD [] = db0.attendees.getD [] := by
  unfold run_pipeline
  rw [h]
  dsimp only
  unfold make_migrations
  exact ⟨rfl, by simp, by simp⟩

/-- C9 (witness): a run over `[evGood, evNoTimes]` against a store not yet
carrying the tables aborts with the validation error and writes no rows. -/
theorem c9_witness :
    process_events [evGood, evNoTimes] =
      Except.error (PyErr.validationError "Input should be a valid datetime") ∧
    ((run_pipeline ⟨none, none, 0⟩ [evGood, evNoTimes]).err =
        some (PyErr.validationError "Input should be a valid datetime") ∧
      (run_pipeline ⟨none, none, 0⟩ [evGood, evNoTimes]).db.events.getD [] =
        (⟨none, none, 0⟩ : DB).events.getD [] ∧
      (run_pipeline ⟨none, none, 0⟩ [evGood, evNoTimes]).db.attendees.getD [] =
        (⟨none, none, 0⟩ : DB).attendees.getD []) :=
  ⟨rfl, c9_no_writes_on_validation_failure ⟨none, none, 0⟩ [evGood, evNoTimes]
    (PyErr.validationError "Input should be a valid datetime") rfl⟩

/-- C10 (confirmed): the `"No Email"` placeholder substituted for an
absent attendee email itself fails the email-shape validation, so
normalizing a sequence containing an attendee entry without an email never
succeeds (the run aborts), and no successfully normalized attendee can
ever carry the email `"No Email"` — the placeholder is unreachable as a
stored value. -/
theorem c10_no_email_placeholder_unreachable :
    (emailstr_validate "No Email" =
      Except.error (PyErr.validationError "value is not a valid email address")) ∧
    (∀ (raws : List RawEvent) (e : RawEvent), e ∈ raws →
      (∃ ai ∈ e.attendees, ai.email = none) →
      ∀ res, process_events raws ≠ Except.ok res) ∧
    (∀ (raws : List RawEvent) (pairs : List (Event × List Attendee)),
      process_events raws = Except.ok pairs →
      ∀ p ∈ pairs, ∀ a ∈ p.2, a.email ≠ "No Email") := by
  refine ⟨rfl, ?_, ?_⟩
  · intro raws e he hex res hok
    obtain ⟨ai, hai, hmail⟩ := hex
    obtain ⟨p, hp⟩ := (process_events_ok hok).2 e he
    obtain ⟨org, _, _, _, _, _, _, _, _, hatt⟩ :=
      @processOne_ok e p.1 p.2 hp
    obtain ⟨x, hx⟩ := (processAttendees_ok hatt).2 ai hai
    rw [hmail] at hx
    simp only [Option.getD_none] at hx
    have hne : emailstr_validate "No Email" =
        Except.error (PyErr.validationError "value is not a valid email address") := rfl
    unfold Attendee.make at hx
    rw [hne] at hx
    exact Except.noConfusion hx
  · intro raws pairs hok p hp a ha heq
    have hws := (process_events_pairs_wf hok p hp a ha).2
    rw [heq] at hws
    have hmem : (' ' : Char) ∈ "No Email".toList := by decide
    have := hws ' ' hmem
    exact absurd this (by decide)

/-- C10 (witness): the sequence `[evNoEmail]` (one attendee entry without
an email key) cannot normalize successfully. -/
theorem c10_witness :
    process_events [evNoEmail] ≠ Except.ok [] :=
  c10_no_email_placeholder_unreachable.2.1 [evNoEmail] evNoEmail
    (List.mem_singleton.mpr rfl) ⟨⟨none⟩, List.mem_singleton.mpr rfl, rfl⟩ []
